import Mathlib

/-!
# Device agent lifecycle (`pkg/agent/agent.go`)

A shallow embedding of the agent's credential store, registration routine,
orchestrator entry point and supervision loop, together with the operating
system and control-plane calls they make.

Conventions of the embedding:

* Strings that form paths (`stateDir`, `projectID`, file names) are Lean
  strings.  Strings that travel between the control plane, the credential
  files and the client are byte sequences, as Go strings are; the conversions
  `[]byte(s)` and `string(b)` keep the bytes.
* A path returned by `path.Join` is kept in its cleaned form: whether it is
  rooted, and its components.  The empty string, which `path.Join` returns
  when every element is empty, is `none`.
* The file system is a table from cleaned paths to nodes.  Permissions and
  symbolic links are not modelled.
* `os.MkdirAll` and `ioutil.WriteFile` take an injected fault, so that every
  outcome of a write can be considered; `os.Stat` and `ioutil.ReadFile` are
  determined by the table.
-/

namespace Agent

/-! ## Paths -/

/-- Byte sequences: Go `[]byte`, and the contents of Go strings. -/
abbrev Bytes := List UInt8

/-- Cleaned slash-separated path: `rooted` tells whether it starts with a
slash, `comps` are its components in order. -/
structure CleanPath where
  rooted : Bool
  comps : List String
  deriving DecidableEq, Repr

/-- Go path value; `none` is the empty string. -/
abbrev GoPath := Option CleanPath

/-- Pieces of a character sequence between slashes, as `strings.Split(s, "/")`. -/
def splitSlash : List Char → List (List Char)
  | [] => [[]]
  | c :: cs =>
    if c = '/' then [] :: splitSlash cs
    else
      match splitSlash cs with
      | [] => [[c]]
      | w :: ws => (c :: w) :: ws

/-- Concatenation with a slash between neighbours, as `strings.Join(xs, "/")`. -/
def joinSlash : List (List Char) → List Char
  | [] => []
  | [x] => x
  | x :: y :: r => x ++ '/' :: joinSlash (y :: r)

/-- One step of `path.Clean` on the components seen so far: empty and `.`
components vanish, `..` removes the preceding component when there is one that
is not itself `..`, is dropped at the root, and is kept otherwise. -/
def cleanStep (rooted : Bool) (st : List String) (c : String) : List String :=
  if c = "" ∨ c = "." then st
  else if c = ".." then
    if st ≠ [] ∧ st.getLast? ≠ some ".." then st.dropLast
    else if rooted then st
    else st ++ [".."]
  else st ++ [c]

/-- Go `path.Clean`, on a non-empty character sequence, in cleaned form. -/
def pathClean (s : List Char) : CleanPath :=
  let rooted := decide (s.head? = some '/')
  { rooted := rooted
    comps := ((splitSlash s).map String.mk).foldl (cleanStep rooted) [] }

/-- Go `path.Join`: empty elements are ignored, the rest are joined with
slashes and cleaned; the result is the empty string when nothing is left. -/
def pathJoin (elem : List String) : GoPath :=
  let nonEmpty := elem.filter (fun e => e ≠ "")
  if nonEmpty = [] then none
  else some (pathClean (joinSlash (nonEmpty.map String.data)))

/-! ## File system -/

/-- Errors of the operating-system calls: `ENOENT`, `ENOTDIR`, `EISDIR`, and
any other error by its number. -/
inductive IOErr where
  | notExist
  | notDir
  | isDir
  | other (code : Nat)
  deriving DecidableEq, Repr

/-- Go `os.IsNotExist` on the errors of this model. -/
def IOErr.isNotExist : IOErr → Bool
  | .notExist => true
  | _ => false

/-- What a path names: a regular file with its contents, or a directory. -/
inductive Node where
  | file (contents : Bytes)
  | dir
  deriving DecidableEq, Repr

/-- File-system table. -/
abbrev FS := CleanPath → Option Node

/-- Paths made only of `..` components (the root, the working directory and
the directories above it), which always name a directory. -/
def isAnchor (p : CleanPath) : Bool := p.comps.all (fun c => c == "..")

/-- Node named by a path in the table. -/
def FS.lookup (fs : FS) (p : CleanPath) : Option Node :=
  if isAnchor p then some Node.dir else fs p

/-- Table with one entry replaced. -/
def FS.set (fs : FS) (p : CleanPath) (n : Node) : FS :=
  fun q => if q = p then some n else fs q

/-- Walk down the given directories, outermost first: the first one that is
missing gives `ENOENT`, the first one that is a file gives `ENOTDIR`. -/
def walkDirs (fs : FS) (rooted : Bool) : List (List String) → Option IOErr
  | [] => none
  | cs :: rest =>
    match fs.lookup ⟨rooted, cs⟩ with
    | some Node.dir => walkDirs fs rooted rest
    | some (Node.file _) => some IOErr.notDir
    | none => some IOErr.notExist

/-- Directories strictly above a path, outermost first. -/
def CleanPath.above (p : CleanPath) : List (List String) := p.comps.inits.dropLast

/-- Node a path resolves to: every directory above it must exist. -/
def resolve (fs : FS) (p : CleanPath) : Except IOErr Node :=
  match walkDirs fs p.rooted p.above with
  | some e => .error e
  | none =>
    match fs.lookup p with
    | some n => .ok n
    | none => .error IOErr.notExist

/-- Go `os.Stat`, keeping only the error: `none` when the path exists. -/
def osStat (fs : FS) : GoPath → Option IOErr
  | none => some IOErr.notExist
  | some p =>
    match resolve fs p with
    | .ok _ => none
    | .error e => some e

/-- Go `ioutil.ReadFile`. -/
def ioutilReadFile (fs : FS) : GoPath → Except IOErr Bytes
  | none => .error IOErr.notExist
  | some p =>
    match resolve fs p with
    | .ok (Node.file b) => .ok b
    | .ok Node.dir => .error IOErr.isDir
    | .error e => .error e

/-- Creation of the listed directories, outermost first: existing directories
are passed, a file in the way gives `ENOTDIR`, and from the first missing one
on every directory is created. -/
def mkdirWalk (fs : FS) (rooted : Bool) : List (List String) → Except IOErr FS
  | [] => .ok fs
  | cs :: rest =>
    match fs.lookup ⟨rooted, cs⟩ with
    | some Node.dir => mkdirWalk fs rooted rest
    | some (Node.file _) => .error IOErr.notDir
    | none =>
      .ok (rest.foldl (fun f ds => f.set ⟨rooted, ds⟩ Node.dir) (fs.set ⟨rooted, cs⟩ Node.dir))

/-- Go `os.MkdirAll`.  An injected fault makes the call fail and leaves the
table as it was. -/
def osMkdirAll (fault : Option IOErr) (fs : FS) : GoPath → Option IOErr × FS
  | none => (some IOErr.notExist, fs)
  | some p =>
    match fault with
    | some e => (some e, fs)
    | none =>
      match mkdirWalk fs p.rooted p.comps.inits with
      | .ok fs1 => (none, fs1)
      | .error e => (some e, fs)

/-- Injected failure of `ioutil.WriteFile`: the file could not be opened, or it
was opened (created or truncated) and only the first `n` bytes were written. -/
inductive WriteFault where
  | openErr (e : IOErr)
  | shortWrite (n : Nat) (e : IOErr)
  deriving DecidableEq, Repr

/-- Go `ioutil.WriteFile`: the directory above the path must exist and the path
must not name a directory; the file then holds exactly the contents. -/
def ioutilWriteFile (fault : Option WriteFault) (fs : FS) (path : GoPath)
    (contents : Bytes) : Option IOErr × FS :=
  match path with
  | none => (some IOErr.notExist, fs)
  | some p =>
    match walkDirs fs p.rooted p.above with
    | some e => (some e, fs)
    | none =>
      match fs.lookup p with
      | some Node.dir => (some IOErr.isDir, fs)
      | _ =>
        match fault with
        | none => (none, fs.set p (Node.file contents))
        | some (WriteFault.openErr e) => (some e, fs)
        | some (WriteFault.shortWrite n e) => (some e, fs.set p (Node.file (contents.take n)))

/-! ## Control plane, collaborators and agent state -/

/-- Go `error` values of the agent: an operating-system error, an error of a
collaborator, or `errors.Wrap(cause, msg)`. -/
inductive Err where
  | io (e : IOErr)
  | remote (code : Nat)
  | wrap (cause : Err) (msg : String)
  deriving DecidableEq, Repr

/-- Response of `RegisterDevice`. -/
structure RegisterDeviceResponse where
  deviceAccessKeyValue : Bytes
  deviceID : Bytes
  deriving DecidableEq, Repr

/-- Bundle returned by `GetBundle`; only its applications are passed on. -/
structure Bundle where
  applications : List String
  deriving DecidableEq, Repr

/-- Calls the agent makes on the client and on its collaborators. -/
inductive Call where
  | registerDevice (registrationToken : String)
  | setAccessKey (accessKey : Bytes)
  | setDeviceID (deviceID : Bytes)
  | getBundle
  | setApplications (applications : List String)
  | connectorDo
  | report
  deriving DecidableEq, Repr

/-- Credentials held by the client. -/
structure Client where
  accessKey : Bytes
  deviceID : Bytes
  deriving DecidableEq, Repr

/-- Everything the agent acts on: the file system, the client, the
applications set on the supervisor, and the calls made so far, oldest first. -/
structure World where
  fs : FS
  client : Client
  applications : List String
  calls : List Call

/-- Outcomes supplied by the surroundings during one `Initialize`: the answer of
the control plane to `RegisterDevice`, and the faults of the directory creation
and file write of each of the two credential writes. -/
structure Env where
  registerDevice : String → Except Err RegisterDeviceResponse
  mkdirAccessKey : Option IOErr
  writeAccessKey : Option WriteFault
  mkdirDeviceID : Option IOErr
  writeDeviceID : Option WriteFault

/-- Name of the access-key file. -/
def accessKeyFilename : String := "access-key"

/-- Name of the device-id file. -/
def deviceIDFilename : String := "device-id"

end Agent

/-- Configuration fields of the Go `Agent` struct. -/
structure Agent where
  projectID : String
  registrationToken : String
  stateDir : String
  deriving DecidableEq, Repr

namespace Agent

/-- Go `(*Agent).fileLocation`. -/
def fileLocation (a : Agent) (elem : List String) : GoPath :=
  pathJoin ([a.stateDir, a.projectID] ++ elem)

/-- Go `(*Agent).writeFile`, with the faults of its two system calls. -/
def writeFile (a : Agent) (mkdirFault : Option IOErr) (writeFault : Option WriteFault)
    (fs : FS) (contents : Bytes) (elem : List String) : Option IOErr × FS :=
  match osMkdirAll mkdirFault fs (a.fileLocation []) with
  | (some err, fs1) => (some err, fs1)
  | (none, fs1) =>
    match ioutilWriteFile writeFault fs1 (a.fileLocation elem) contents with
    | (some err, fs2) => (some err, fs2)
    | (none, fs2) => (none, fs2)

/-- Go `(*Agent).register`. -/
def register (a : Agent) (env : Env) (w : World) : Option Err × World :=
  let w0 := { w with calls := w.calls ++ [Call.registerDevice a.registrationToken] }
  match env.registerDevice a.registrationToken with
  | .error err => (some err, w0)
  | .ok registerDeviceResponse =>
    match a.writeFile env.mkdirAccessKey env.writeAccessKey w0.fs
        registerDeviceResponse.deviceAccessKeyValue [accessKeyFilename] with
    | (some err, fs1) => (some (Err.wrap (Err.io err) "failed to save access key"), { w0 with fs := fs1 })
    | (none, fs1) =>
      match a.writeFile env.mkdirDeviceID env.writeDeviceID fs1
          registerDeviceResponse.deviceID [deviceIDFilename] with
      | (some err, fs2) => (some (Err.wrap (Err.io err) "failed to save device ID"), { w0 with fs := fs2 })
      | (none, fs2) => (none, { w0 with fs := fs2 })

/-- Go `(*Agent).Initialize`.  The first component is the returned error,
`none` for `nil`. -/
def Initialize (a : Agent) (env : Env) (w : World) : Option Err × World :=
  let checked : Option Err × World :=
    match osStat w.fs (a.fileLocation [accessKeyFilename]) with
    | none => (none, w)
    | some err =>
      if err.isNotExist then
        match a.register env w with
        | (some err, w1) => (some (Err.wrap err "failed to register device"), w1)
        | (none, w1) => (none, w1)
      else (some (Err.wrap (Err.io err) "failed to check for access key"), w)
  match checked with
  | (some err, w1) => (some err, w1)
  | (none, w1) =>
    match ioutilReadFile w1.fs (a.fileLocation [accessKeyFilename]) with
    | .error err => (some (Err.wrap (Err.io err) "failed to read access key"), w1)
    | .ok accessKeyBytes =>
      match ioutilReadFile w1.fs (a.fileLocation [deviceIDFilename]) with
      | .error err => (some (Err.wrap (Err.io err) "failed to read device ID"), w1)
      | .ok deviceIDBytes =>
        (none, { w1 with
          client := { accessKey := accessKeyBytes, deviceID := deviceIDBytes }
          calls := w1.calls ++ [Call.setAccessKey accessKeyBytes, Call.setDeviceID deviceIDBytes] })

/-- Repeated `Initialize`, one environment per call; the result lists the
returned errors in order. -/
def initializeMany (a : Agent) : List Env → World → List (Option Err) × World
  | [], w => ([], w)
  | env :: rest, w =>
    let r := a.Initialize env w
    let rs := initializeMany a rest r.2
    (r.1 :: rs.1, rs.2)

/-! ## Loops and entry point -/

/-- The first cycles of the `for` loop of Go `(*Agent).runSupervisor`, one per
given outcome of `GetBundle`; waiting for the ticker leaves the state as it is. -/
def runSupervisor (a : Agent) : List (Except Err Bundle) → World → World
  | [], w => w
  | r :: rest, w =>
    let w1 := { w with calls := w.calls ++ [Call.getBundle] }
    match r with
    | .error _ => runSupervisor a rest w1
    | .ok bundle =>
      runSupervisor a rest { w1 with
        applications := bundle.applications
        calls := w1.calls ++ [Call.setApplications bundle.applications] }

/-- The first `n` cycles of the loop of Go `(*Agent).runConnector`. -/
def runConnector (a : Agent) : Nat → World → World
  | 0, w => w
  | n + 1, w => runConnector a n { w with calls := w.calls ++ [Call.connectorDo] }

/-- The first cycles of the loop of Go `(*Agent).runInfoReporter`, one per
given outcome of `Report`. -/
def runInfoReporter (a : Agent) : List (Option Err) → World → World
  | [], w => w
  | _ :: rest, w => runInfoReporter a rest { w with calls := w.calls ++ [Call.report] }

/-- One cycle of one of the three goroutines, with the outcome of its call. -/
inductive Tick where
  | supervisor (r : Except Err Bundle)
  | connector
  | infoReporter (r : Option Err)

/-- Go `(*Agent).Run`: the three loops are started and the caller blocks
forever.  The schedule lists, in the order they happen, the cycles the three
goroutines get to run; the result is the state after them. -/
def Run (a : Agent) : List Tick → World → World
  | [], w => w
  | Tick.supervisor r :: rest, w => Run a rest (a.runSupervisor [r] w)
  | Tick.connector :: rest, w => Run a rest (a.runConnector 1 w)
  | Tick.infoReporter r :: rest, w => Run a rest (a.runInfoReporter [r] w)

/-! ## Predicates used in the statements -/

/-- Every listed directory exists. -/
def allDirs (fs : FS) (r : Bool) (L : List (List String)) : Prop :=
  ∀ cs ∈ L, fs.lookup ⟨r, cs⟩ = some Node.dir

/-- File names the agent uses: one plain component. -/
def PlainName (f : String) : Prop :=
  f ≠ "" ∧ f ≠ "." ∧ f ≠ ".." ∧ splitSlash f.data = [f.data] ∧ f.data.head? ≠ some '/'

/-- Path of a file directly inside the directory named by a path. -/
def childPath (base : GoPath) (f : String) : CleanPath :=
  match base with
  | none => ⟨false, [f]⟩
  | some b => ⟨b.rooted, b.comps ++ [f]⟩

/-- Tables of real file systems: whatever is in the table lies in directories
that are in the table. -/
def WellFormed (fs : FS) : Prop :=
  ∀ q : CleanPath, fs.lookup q ≠ none → allDirs fs q.rooted q.above

/-- The empty file system: nothing but the root and the working directory. -/
def emptyFS : FS := fun _ => none

/-- Sample agent used in the concrete instances. -/
def sampleAgent : Agent :=
  { projectID := "prj", registrationToken := "tok", stateDir := "/var/lib/deviceplane" }

/-- Sample world: empty file system, client without credentials, no calls. -/
def sampleWorld : World :=
  { fs := emptyFS, client := { accessKey := [], deviceID := [] }, applications := [], calls := [] }

/-- Environment without faults whose control plane answers with the given
credentials. -/
def okEnv (accessKey deviceID : Bytes) : Env :=
  { registerDevice := fun _ => .ok { deviceAccessKeyValue := accessKey, deviceID := deviceID }
    mkdirAccessKey := none
    writeAccessKey := none
    mkdirDeviceID := none
    writeDeviceID := none }

/-- Environment without faults whose control plane refuses the registration. -/
def refusingEnv : Env :=
  { registerDevice := fun _ => .error (Err.remote 500)
    mkdirAccessKey := none
    writeAccessKey := none
    mkdirDeviceID := none
    writeDeviceID := none }

/-- World whose file system has a regular file at `/var`, so that nothing
below `/var` can be reached. -/
def blockedWorld : World :=
  { sampleWorld with fs := emptyFS.set ⟨true, ["var"]⟩ (Node.file []) }

/-- File system of a registered device: the state directory and both
credential files. -/
def registeredFS : FS :=
  ((((emptyFS.set ⟨true, ["var"]⟩ Node.dir).set ⟨true, ["var", "lib"]⟩ Node.dir).set
    ⟨true, ["var", "lib", "deviceplane"]⟩ Node.dir).set
    ⟨true, ["var", "lib", "deviceplane", "prj"]⟩ Node.dir).set
    ⟨true, ["var", "lib", "deviceplane", "prj", "access-key"]⟩ (Node.file [107, 49]) |>.set
    ⟨true, ["var", "lib", "deviceplane", "prj", "device-id"]⟩ (Node.file [100, 55])

/-- World of a registered device whose client has not been configured yet. -/
def registeredWorld : World := { sampleWorld with fs := registeredFS }

/-- File system in which the access-key file is present and the device-id file
is not. -/
def halfFS : FS :=
  ((((emptyFS.set ⟨true, ["var"]⟩ Node.dir).set ⟨true, ["var", "lib"]⟩ Node.dir).set
    ⟨true, ["var", "lib", "deviceplane"]⟩ Node.dir).set
    ⟨true, ["var", "lib", "deviceplane", "prj"]⟩ Node.dir).set
    ⟨true, ["var", "lib", "deviceplane", "prj", "access-key"]⟩ (Node.file [107, 49])

/-- World with only the access-key file. -/
def halfWorld : World := { sampleWorld with fs := halfFS }

/-- Calls among which there is no `SetAccessKey` and no `SetDeviceID`. -/
def NoCredentialCall (cs : List Call) : Prop :=
  ∀ k : Bytes, Call.setAccessKey k ∉ cs ∧ Call.setDeviceID k ∉ cs

/-- Calls of one supervisor cycle, by the outcome of its `GetBundle`: the
fetch, followed by `SetApplications` with the bundle's applications when the
fetch succeeded. -/
def cycleCalls : Except Err Bundle → List Call
  | .ok bundle => [Call.getBundle, Call.setApplications bundle.applications]
  | .error _ => [Call.getBundle]

/-- Applications of a successful fetch. -/
def fetchedApplications : Except Err Bundle → Option (List String)
  | .ok bundle => some bundle.applications
  | .error _ => none

/-- Applications passed by a `SetApplications` call. -/
def setApplicationsArg : Call → Option (List String)
  | Call.setApplications apps => some apps
  | _ => none

/-- Environment in which the registration succeeds and the write of the
device-id file fails for lack of space, before any byte is written. -/
def diskFullEnv : Env :=
  { registerDevice := fun _ => .ok { deviceAccessKeyValue := [107, 49], deviceID := [100, 55] }
    mkdirAccessKey := none
    writeAccessKey := none
    mkdirDeviceID := none
    writeDeviceID := some (WriteFault.openErr (IOErr.other 28)) }

/-- The path exists, as `os.Stat` reports. -/
def PathExists (fs : FS) (path : GoPath) : Prop := osStat fs path = none

/-- Either both credential files exist or neither does. -/
def BothOrNeither (a : Agent) (fs : FS) : Prop :=
  (PathExists fs (a.fileLocation [accessKeyFilename]) ∧
      PathExists fs (a.fileLocation [deviceIDFilename])) ∨
    (¬ PathExists fs (a.fileLocation [accessKeyFilename]) ∧
      ¬ PathExists fs (a.fileLocation [deviceIDFilename]))

/-- Calls of one cycle of one of the three loops. -/
def tickCalls : Tick → List Call
  | Tick.supervisor r => cycleCalls r
  | Tick.connector => [Call.connectorDo]
  | Tick.infoReporter _ => [Call.report]

/-- Calls that belong to the three loops, as opposed to those of `Initialize`. -/
def Call.isLoopAction : Call → Bool
  | Call.getBundle => true
  | Call.setApplications _ => true
  | Call.connectorDo => true
  | Call.report => true
  | _ => false

/-! ## Lemmas on paths and the file system -/

theorem inits_snoc (l : List String) (c : String) :
    (l ++ [c]).inits = l.inits ++ [l ++ [c]] := by
  rw [List.inits_append]
  simp [List.inits]

theorem above_snoc (r : Bool) (l : List String) (c : String) :
    CleanPath.above ⟨r, l ++ [c]⟩ = l.inits := by
  simp [CleanPath.above, inits_snoc]

theorem length_lt_of_mem_above (l cs : List String) (h : cs ∈ l.inits.dropLast) :
    cs.length < l.length := by
  rcases List.eq_nil_or_concat l with hl | ⟨l1, c, hl⟩
  · subst hl
    simp [List.inits] at h
  · subst hl
    rw [List.concat_eq_append, inits_snoc, List.dropLast_concat] at h
    have hp := (List.mem_inits cs l1).1 h
    have := hp.length_le
    simp
    omega

theorem lookup_set_ne (fs : FS) (p q : CleanPath) (n : Node) (h : q ≠ p) :
    (fs.set p n).lookup q = fs.lookup q := by
  simp [FS.lookup, FS.set, h]

theorem lookup_set_self (fs : FS) (p : CleanPath) (n : Node) (h : isAnchor p = false) :
    (fs.set p n).lookup p = some n := by
  simp [FS.lookup, FS.set, h]

theorem walkDirs_set (fs : FS) (p : CleanPath) (n : Node) (r : Bool) (L : List (List String))
    (h : ∀ cs ∈ L, (⟨r, cs⟩ : CleanPath) ≠ p) :
    walkDirs (fs.set p n) r L = walkDirs fs r L := by
  induction L with
  | nil => rfl
  | cons cs rest ih =>
    have h1 : (⟨r, cs⟩ : CleanPath) ≠ p := h cs (List.mem_cons_self _ _)
    have h2 := ih (fun ds hd => h ds (List.mem_cons_of_mem _ hd))
    simp only [walkDirs, lookup_set_ne fs p ⟨r, cs⟩ n h1, h2]

theorem walkDirs_set_self (fs : FS) (p : CleanPath) (n : Node) :
    walkDirs (fs.set p n) p.rooted p.above = walkDirs fs p.rooted p.above := by
  apply walkDirs_set
  intro cs hcs heq
  have hlt := length_lt_of_mem_above p.comps cs hcs
  have : cs = p.comps := by rw [← heq]
  rw [this] at hlt
  exact Nat.lt_irrefl _ hlt

theorem walkDirs_eq_none_iff (fs : FS) (r : Bool) (L : List (List String)) :
    walkDirs fs r L = none ↔ allDirs fs r L := by
  induction L with
  | nil => simp [walkDirs, allDirs]
  | cons cs rest ih =>
    simp only [walkDirs, allDirs, List.mem_cons, forall_eq_or_imp]
    cases hl : fs.lookup ⟨r, cs⟩ with
    | none => simp
    | some n =>
      cases n with
      | file b => simp
      | dir => simpa [allDirs] using ih

theorem mkdirWalk_of_allDirs (fs : FS) (r : Bool) (L : List (List String))
    (h : allDirs fs r L) : mkdirWalk fs r L = .ok fs := by
  induction L with
  | nil => rfl
  | cons cs rest ih =>
    have h1 := h cs (List.mem_cons_self _ _)
    simp only [mkdirWalk, h1]
    exact ih (fun ds hd => h ds (List.mem_cons_of_mem _ hd))

theorem lookup_set_dir_of_dir (fs : FS) (p q : CleanPath)
    (h : fs.lookup q = some Node.dir) : (fs.set p Node.dir).lookup q = some Node.dir := by
  unfold FS.lookup FS.set at *
  by_cases ha : isAnchor q = true
  · simp [ha]
  · simp only [ha] at h ⊢
    by_cases hq : q = p
    · simp [hq]
    · simpa [hq] using h

theorem lookup_set_dir_self (fs : FS) (p : CleanPath) :
    (fs.set p Node.dir).lookup p = some Node.dir := by
  unfold FS.lookup FS.set
  by_cases ha : isAnchor p = true <;> simp [ha]

theorem foldl_set_dir_keeps (r : Bool) (L : List (List String)) (fs : FS) (q : CleanPath)
    (h : fs.lookup q = some Node.dir) :
    (L.foldl (fun f ds => f.set ⟨r, ds⟩ Node.dir) fs).lookup q = some Node.dir := by
  induction L generalizing fs with
  | nil => exact h
  | cons cs rest ih => exact ih _ (lookup_set_dir_of_dir fs _ q h)

theorem foldl_set_dir_allDirs (r : Bool) (L : List (List String)) (fs : FS) :
    allDirs (L.foldl (fun f ds => f.set ⟨r, ds⟩ Node.dir) fs) r L := by
  induction L generalizing fs with
  | nil => intro cs hcs; simp at hcs
  | cons cs rest ih =>
    intro ds hd
    rcases List.mem_cons.1 hd with h1 | h1
    · subst h1
      exact foldl_set_dir_keeps r rest _ _ (lookup_set_dir_self fs _)
    · exact ih _ ds h1

theorem mkdirWalk_keeps (fs fs1 : FS) (r : Bool) (L : List (List String)) (q : CleanPath)
    (h : mkdirWalk fs r L = .ok fs1) (hq : fs.lookup q = some Node.dir) :
    fs1.lookup q = some Node.dir := by
  induction L with
  | nil =>
    simp only [mkdirWalk, Except.ok.injEq] at h
    subst h
    exact hq
  | cons cs rest ih =>
    simp only [mkdirWalk] at h
    cases hl : fs.lookup ⟨r, cs⟩ with
    | none =>
      rw [hl] at h
      simp only [Except.ok.injEq] at h
      subst h
      exact foldl_set_dir_keeps r rest _ q (lookup_set_dir_of_dir fs _ q hq)
    | some n =>
      rw [hl] at h
      cases n with
      | file b => simp at h
      | dir => exact ih h

theorem mkdirWalk_ok_allDirs (fs fs1 : FS) (r : Bool) (L : List (List String))
    (h : mkdirWalk fs r L = .ok fs1) : allDirs fs1 r L := by
  induction L with
  | nil => intro cs hcs; simp at hcs
  | cons cs rest ih =>
    simp only [mkdirWalk] at h
    cases hl : fs.lookup ⟨r, cs⟩ with
    | none =>
      rw [hl] at h
      simp only [Except.ok.injEq] at h
      subst h
      exact foldl_set_dir_allDirs r (cs :: rest) fs
    | some n =>
      rw [hl] at h
      cases n with
      | file b => simp at h
      | dir =>
        simp only at h
        have h2 := ih h
        intro ds hd
        rcases List.mem_cons.1 hd with h1 | h1
        · subst h1
          exact mkdirWalk_keeps fs fs1 r rest _ h hl
        · exact h2 ds h1

/-! ## Lemmas on `path.Join` -/

theorem splitSlash_ne_nil (s : List Char) : splitSlash s ≠ [] := by
  cases s with
  | nil => simp [splitSlash]
  | cons c cs =>
    simp only [splitSlash]
    split
    · simp
    · split <;> simp

theorem splitSlash_append_slash (s t : List Char) :
    splitSlash (s ++ '/' :: t) = splitSlash s ++ splitSlash t := by
  induction s with
  | nil => simp [splitSlash]
  | cons c cs ih =>
    by_cases hc : c = '/'
    · simp [splitSlash, hc, ih]
    · simp only [List.cons_append, splitSlash, hc, if_false]
      have ih2 : splitSlash (cs.append ('/' :: t)) = splitSlash cs ++ splitSlash t := ih
      rw [ih2]
      cases hs : splitSlash cs with
      | nil => exact absurd hs (splitSlash_ne_nil cs)
      | cons w ws => simp

theorem joinSlash_snoc (X : List (List Char)) (w : List Char) (hX : X ≠ []) :
    joinSlash (X ++ [w]) = joinSlash X ++ '/' :: w := by
  induction X with
  | nil => exact absurd rfl hX
  | cons x rest ih =>
    cases rest with
    | nil => simp [joinSlash]
    | cons y r =>
      have e : (x :: y :: r) ++ [w] = x :: y :: (r ++ [w]) := rfl
      have e2 : (y :: r) ++ [w] = y :: (r ++ [w]) := rfl
      rw [e]
      show x ++ '/' :: joinSlash (y :: (r ++ [w])) = _
      rw [← e2, ih (by simp)]
      simp [joinSlash]

theorem joinSlash_ne_nil (X : List (List Char)) (hX : X ≠ []) (hne : ∀ x ∈ X, x ≠ []) :
    joinSlash X ≠ [] := by
  cases X with
  | nil => exact absurd rfl hX
  | cons x rest =>
    have hx : x ≠ [] := hne x (List.mem_cons_self _ _)
    cases rest with
    | nil => simpa [joinSlash] using hx
    | cons y r => simp [joinSlash, hx]

theorem plainName_accessKey : PlainName accessKeyFilename := by
  unfold PlainName accessKeyFilename
  decide

theorem plainName_deviceID : PlainName deviceIDFilename := by
  unfold PlainName deviceIDFilename
  decide

theorem cleanStep_plain (r : Bool) (st : List String) (f : String) (hf : PlainName f) :
    cleanStep r st f = st ++ [f] := by
  obtain ⟨h1, h2, h3, _, _⟩ := hf
  simp [cleanStep, h1, h2, h3]

theorem pathJoin_snoc (E : List String) (f : String) (hf : PlainName f) :
    pathJoin (E ++ [f]) = some (childPath (pathJoin E) f) := by
  have hf0 := hf
  obtain ⟨h1, _, _, h4, h5⟩ := hf
  obtain ⟨X, hXdef⟩ : ∃ X, X = E.filter (fun e => e ≠ "") := ⟨_, rfl⟩
  have hfilter : (E ++ [f]).filter (fun e => e ≠ "") = X ++ [f] := by
    rw [List.filter_append, hXdef]
    simp [h1]
  have hXne : ∀ x ∈ X.map String.data, x ≠ [] := by
    intro x hx
    rw [hXdef] at hx
    obtain ⟨y, hy, rfl⟩ := List.mem_map.1 hx
    have hy2 := (List.mem_filter.1 hy).2
    intro hd
    apply (of_decide_eq_true hy2)
    exact String.ext hd
  have hmk : String.mk f.data = f := rfl
  unfold pathJoin
  simp only [hfilter, ← hXdef]
  by_cases hX : X = []
  · subst hX
    simp [joinSlash, pathClean, childPath, h4, h5, hmk, cleanStep_plain _ _ f hf0]
  · have hX2 : X.map String.data ≠ [] := by simpa using hX
    have hj := joinSlash_ne_nil _ hX2 hXne
    have hhead : (joinSlash (X.map String.data) ++ '/' :: f.data).head?
        = (joinSlash (X.map String.data)).head? := by
      cases hjj : joinSlash (X.map String.data) with
      | nil => exact absurd hjj hj
      | cons c cs => simp
    have hne : X ++ [f] ≠ [] := by simp
    simp only [hX, hne, if_false, childPath, List.map_append, List.map_cons, List.map_nil]
    rw [joinSlash_snoc _ _ hX2]
    simp only [pathClean, splitSlash_append_slash, h4, List.map_append, List.map_cons,
      List.map_nil, List.foldl_append, List.foldl_cons, List.foldl_nil, hmk, hhead,
      cleanStep_plain _ _ f hf0]

theorem fileLocation_plain (a : Agent) (f : String) (hf : PlainName f) :
    a.fileLocation [f] = some (childPath (a.fileLocation []) f) := by
  unfold fileLocation
  rw [pathJoin_snoc _ f hf]
  simp

/-! ## Initialization: error paths -/

/-- C5: when the existence check of the access-key file fails with an error
other than not-found, `Initialize` returns that error wrapped, and the world is
exactly as before: no call to `RegisterDevice`, `SetAccessKey` or `SetDeviceID`,
no change to the file system or to the client. -/
theorem initialize_stat_error_fatal (a : Agent) (env : Env) (w : World) (e : IOErr)
    (hstat : osStat w.fs (a.fileLocation [accessKeyFilename]) = some e)
    (hne : e.isNotExist = false) :
    a.Initialize env w
      = (some (Err.wrap (Err.io e) "failed to check for access key"), w) := by
  simp [Initialize, hstat, hne]

/-- C5, concrete instance: with a regular file at `/var` the check fails with
`ENOTDIR`. -/
theorem initialize_stat_error_fatal_witness :
    osStat blockedWorld.fs (sampleAgent.fileLocation [accessKeyFilename]) = some IOErr.notDir ∧
    IOErr.notDir.isNotExist = false ∧
    sampleAgent.Initialize refusingEnv blockedWorld
      = (some (Err.wrap (Err.io IOErr.notDir) "failed to check for access key"), blockedWorld) :=
  ⟨by decide, by decide,
    initialize_stat_error_fatal sampleAgent refusingEnv blockedWorld IOErr.notDir
      (by decide) (by decide)⟩

/-- C3: when the access-key file does not exist and `RegisterDevice` returns an
error, `Initialize` returns that error wrapped and the file system is unchanged:
no file and no directory is created.  The only call made is the one to
`RegisterDevice`. -/
theorem initialize_register_error (a : Agent) (env : Env) (w : World) (e : Err)
    (hstat : osStat w.fs (a.fileLocation [accessKeyFilename]) = some IOErr.notExist)
    (hreg : env.registerDevice a.registrationToken = .error e) :
    (a.Initialize env w).1 = some (Err.wrap e "failed to register device") ∧
    (a.Initialize env w).2.fs = w.fs ∧
    (a.Initialize env w).2.client = w.client ∧
    (a.Initialize env w).2.calls = w.calls ++ [Call.registerDevice a.registrationToken] := by
  simp [Initialize, hstat, IOErr.isNotExist, register, hreg]

/-- C3, concrete instance: a fresh device whose registration is refused. -/
theorem initialize_register_error_witness :
    osStat sampleWorld.fs (sampleAgent.fileLocation [accessKeyFilename]) = some IOErr.notExist ∧
    refusingEnv.registerDevice sampleAgent.registrationToken = .error (Err.remote 500) ∧
    (sampleAgent.Initialize refusingEnv sampleWorld).1
      = some (Err.wrap (Err.remote 500) "failed to register device") ∧
    (sampleAgent.Initialize refusingEnv sampleWorld).2.fs = sampleWorld.fs :=
  have h := initialize_register_error sampleAgent refusingEnv sampleWorld (Err.remote 500)
    (by decide) rfl
  ⟨by decide, rfl, h.1, h.2.1⟩

theorem register_client (a : Agent) (env : Env) (w : World) :
    (a.register env w).2.client = w.client := by
  unfold register
  split
  · rfl
  · dsimp only
    split
    · rfl
    · split <;> rfl

theorem register_calls (a : Agent) (env : Env) (w : World) :
    (a.register env w).2.calls = w.calls ++ [Call.registerDevice a.registrationToken] := by
  unfold register
  split
  · rfl
  · dsimp only
    split
    · rfl
    · split <;> rfl

theorem noCredentialCall_nil : NoCredentialCall [] := by
  intro k
  simp

theorem noCredentialCall_register (t : String) : NoCredentialCall [Call.registerDevice t] := by
  intro k
  simp

/-- C10: whenever `Initialize` returns an error, the client's credentials are
unchanged and the calls it made contain no `SetAccessKey` and no `SetDeviceID`;
and when the access-key file exists while the device-id file cannot be read,
`Initialize` returns an error and leaves the whole world as it was (no
`RegisterDevice`, no change to the file system, no credential set). -/
theorem initialize_error_keeps_client (a : Agent) (env : Env) (w : World) :
    ((a.Initialize env w).1 ≠ none →
      (a.Initialize env w).2.client = w.client ∧
      ∃ extra, (a.Initialize env w).2.calls = w.calls ++ extra ∧ NoCredentialCall extra) ∧
    (osStat w.fs (a.fileLocation [accessKeyFilename]) = none →
      ∀ e, ioutilReadFile w.fs (a.fileLocation [deviceIDFilename]) = .error e →
      (a.Initialize env w).1 ≠ none ∧ (a.Initialize env w).2 = w) := by
  constructor
  · intro herr
    unfold Initialize at herr ⊢
    cases hstat : osStat w.fs (a.fileLocation [accessKeyFilename]) with
    | none =>
      simp only [hstat] at herr ⊢
      cases h1 : ioutilReadFile w.fs (a.fileLocation [accessKeyFilename]) with
      | error e1 => exact ⟨by simp, [], by simp, noCredentialCall_nil⟩
      | ok b1 =>
        cases h2 : ioutilReadFile w.fs (a.fileLocation [deviceIDFilename]) with
        | error e2 => exact ⟨by simp, [], by simp, noCredentialCall_nil⟩
        | ok b2 => simp [h1, h2] at herr
    | some e0 =>
      simp only [hstat] at herr ⊢
      by_cases hne : e0.isNotExist = true
      · simp only [hne, if_true] at herr ⊢
        have hc := register_client a env w
        have hl := register_calls a env w
        rcases hr : a.register env w with ⟨r1, w1⟩
        rw [hr] at hc hl
        simp only at hc hl
        cases r1 with
        | some er =>
          exact ⟨by simpa using hc, [Call.registerDevice a.registrationToken],
            by simpa using hl, noCredentialCall_register _⟩
        | none =>
          simp only [hr] at herr ⊢
          cases h1 : ioutilReadFile w1.fs (a.fileLocation [accessKeyFilename]) with
          | error e1 =>
            exact ⟨by simpa using hc, [Call.registerDevice a.registrationToken],
              by simpa using hl, noCredentialCall_register _⟩
          | ok b1 =>
            cases h2 : ioutilReadFile w1.fs (a.fileLocation [deviceIDFilename]) with
            | error e2 =>
              exact ⟨by simpa using hc, [Call.registerDevice a.registrationToken],
                by simpa using hl, noCredentialCall_register _⟩
            | ok b2 => simp [h1, h2] at herr
      · simp only [hne] at herr ⊢
        exact ⟨by simp, [], by simp, noCredentialCall_nil⟩
  · intro hstat e hread
    unfold Initialize
    simp only [hstat, hread]
    cases h1 : ioutilReadFile w.fs (a.fileLocation [accessKeyFilename]) with
    | error e1 => simp
    | ok b1 => simp

/-- C10, concrete instance: the access-key file is present and the device-id
file is missing. -/
theorem initialize_error_keeps_client_witness :
    osStat halfWorld.fs (sampleAgent.fileLocation [accessKeyFilename]) = none ∧
    ioutilReadFile halfWorld.fs (sampleAgent.fileLocation [deviceIDFilename])
      = .error IOErr.notExist ∧
    (sampleAgent.Initialize refusingEnv halfWorld).1 ≠ none ∧
    (sampleAgent.Initialize refusingEnv halfWorld).2 = halfWorld ∧
    (sampleAgent.Initialize refusingEnv halfWorld).2.client = halfWorld.client :=
  have h := initialize_error_keeps_client sampleAgent refusingEnv halfWorld
  have h2 := h.2 (by decide) IOErr.notExist rfl
  ⟨by decide, rfl, h2.1, h2.2, (h.1 h2.1).1⟩

/-! ## Initialization of a registered device -/

theorem stat_of_read (fs : FS) (path : GoPath) (b : Bytes)
    (h : ioutilReadFile fs path = .ok b) : osStat fs path = none := by
  cases path with
  | none => simp [ioutilReadFile] at h
  | some p =>
    unfold ioutilReadFile at h
    unfold osStat
    cases hr : resolve fs p with
    | error e => simp [hr] at h
    | ok n => simp [hr]

theorem initialize_registered (a : Agent) (env : Env) (w : World) (k d : Bytes)
    (hk : ioutilReadFile w.fs (a.fileLocation [accessKeyFilename]) = .ok k)
    (hd : ioutilReadFile w.fs (a.fileLocation [deviceIDFilename]) = .ok d) :
    a.Initialize env w = (none, { w with
      client := { accessKey := k, deviceID := d }
      calls := w.calls ++ [Call.setAccessKey k, Call.setDeviceID d] }) := by
  simp [Initialize, stat_of_read _ _ _ hk, hk, hd]

/-- C2: when both credential files are present and readable, any number
`n ≥ 1` of consecutive `Initialize` calls all return success, leave the file
system unchanged, make no call other than `SetAccessKey` and `SetDeviceID` with
the contents of the two files (so `RegisterDevice` is never called), and end
with the client holding exactly those contents. -/
theorem initialize_registered_idempotent (a : Agent) (envs : List Env) (w : World)
    (k d : Bytes)
    (hk : ioutilReadFile w.fs (a.fileLocation [accessKeyFilename]) = .ok k)
    (hd : ioutilReadFile w.fs (a.fileLocation [deviceIDFilename]) = .ok d)
    (hn : 1 ≤ envs.length) :
    (a.initializeMany envs w).1 = List.replicate envs.length none ∧
    (a.initializeMany envs w).2.fs = w.fs ∧
    (a.initializeMany envs w).2.calls
      = w.calls ++ (List.replicate envs.length
          [Call.setAccessKey k, Call.setDeviceID d]).flatten ∧
    (∀ t, Call.registerDevice t ∉ (List.replicate envs.length
          [Call.setAccessKey k, Call.setDeviceID d]).flatten) ∧
    (a.initializeMany envs w).2.client = { accessKey := k, deviceID := d } := by
  have key : ∀ (es : List Env) (v : World),
      ioutilReadFile v.fs (a.fileLocation [accessKeyFilename]) = .ok k →
      ioutilReadFile v.fs (a.fileLocation [deviceIDFilename]) = .ok d →
      (a.initializeMany es v).1 = List.replicate es.length none ∧
      (a.initializeMany es v).2.fs = v.fs ∧
      (a.initializeMany es v).2.calls
        = v.calls ++ (List.replicate es.length
            [Call.setAccessKey k, Call.setDeviceID d]).flatten ∧
      (1 ≤ es.length →
        (a.initializeMany es v).2.client = { accessKey := k, deviceID := d }) := by
    intro es
    induction es with
    | nil =>
      intro v _ _
      simp [initializeMany]
    | cons e rest ih =>
      intro v hvk hvd
      have hstep := initialize_registered a e v k d hvk hvd
      have ih2 := ih { v with
        client := { accessKey := k, deviceID := d }
        calls := v.calls ++ [Call.setAccessKey k, Call.setDeviceID d] } hvk hvd
      obtain ⟨i1, i2, i3, i4⟩ := ih2
      refine ⟨?_, ?_, ?_, ?_⟩
      · simp only [initializeMany, hstep, i1, List.length_cons, List.replicate_succ]
      · simp only [initializeMany, hstep, i2]
      · simp only [initializeMany, hstep, i3, List.length_cons, List.replicate_succ,
          List.flatten_cons, List.append_assoc]
      · intro _
        cases rest with
        | nil => simp [initializeMany, hstep]
        | cons e2 r2 =>
          simp only [initializeMany, hstep] at i4 ⊢
          exact i4 (by simp)
  obtain ⟨h1, h2, h3, h4⟩ := key envs w hk hd
  refine ⟨h1, h2, h3, ?_, h4 hn⟩
  intro t ht
  rcases List.mem_flatten.1 ht with ⟨l, hl, htl⟩
  rw [List.eq_of_mem_replicate hl] at htl
  simp at htl

/-- C2, concrete instance: three restarts of a registered device. -/
theorem initialize_registered_idempotent_witness :
    (sampleAgent.initializeMany [refusingEnv, refusingEnv, refusingEnv] registeredWorld).1
      = [none, none, none] ∧
    (sampleAgent.initializeMany [refusingEnv, refusingEnv, refusingEnv] registeredWorld).2.fs
      = registeredFS ∧
    (sampleAgent.initializeMany [refusingEnv, refusingEnv, refusingEnv] registeredWorld).2.client
      = { accessKey := [107, 49], deviceID := [100, 55] } :=
  have h := initialize_registered_idempotent sampleAgent [refusingEnv, refusingEnv, refusingEnv]
    registeredWorld [107, 49] [100, 55] rfl rfl (by decide)
  ⟨h.1, h.2.1, h.2.2.2.2⟩

/-! ## Supervision loop -/

theorem getLast?_cons_getD (x d : List String) (l : List (List String)) :
    (x :: l).getLast?.getD d = l.getLast?.getD x := by
  cases l with
  | nil => rfl
  | cons y r =>
    rw [List.getLast?_cons_cons]
    cases h : (y :: r).getLast? with
    | none => simp at h
    | some v => rfl

theorem runSupervisor_spec (a : Agent) (rs : List (Except Err Bundle)) (w : World) :
    (a.runSupervisor rs w).calls = w.calls ++ rs.flatMap cycleCalls ∧
    (a.runSupervisor rs w).applications
      = (rs.filterMap fetchedApplications).getLast?.getD w.applications ∧
    (a.runSupervisor rs w).fs = w.fs ∧
    (a.runSupervisor rs w).client = w.client := by
  induction rs generalizing w with
  | nil => simp [runSupervisor]
  | cons r rest ih =>
    cases r with
    | error e =>
      obtain ⟨h1, h2, h3, h4⟩ := ih { w with calls := w.calls ++ [Call.getBundle] }
      simp only [runSupervisor]
      refine ⟨?_, ?_, h3, h4⟩
      · rw [h1]
        simp [cycleCalls]
      · rw [h2]
        simp [fetchedApplications]
    | ok b =>
      obtain ⟨h1, h2, h3, h4⟩ := ih { w with
        applications := b.applications
        calls := (w.calls ++ [Call.getBundle]) ++ [Call.setApplications b.applications] }
      simp only [runSupervisor]
      refine ⟨?_, ?_, h3, h4⟩
      · rw [h1]
        simp [cycleCalls]
      · rw [h2]
        simp only [List.filterMap_cons, fetchedApplications]
        exact (getLast?_cons_getD _ _ _).symm

theorem count_getBundle_cycles (rs : List (Except Err Bundle)) :
    (rs.flatMap cycleCalls).count Call.getBundle = rs.length := by
  induction rs with
  | nil => rfl
  | cons r rest ih =>
    rw [List.flatMap_cons, List.count_append, ih]
    cases r <;> simp [cycleCalls, List.count_cons] <;> omega

theorem setApplications_cycles (rs : List (Except Err Bundle)) :
    (rs.flatMap cycleCalls).filterMap setApplicationsArg
      = rs.filterMap fetchedApplications := by
  induction rs with
  | nil => rfl
  | cons r rest ih =>
    rw [List.flatMap_cons, List.filterMap_append, ih]
    cases r <;> simp [cycleCalls, setApplicationsArg, fetchedApplications]

/-- C7: over `k` cycles with any `GetBundle` outcomes, the supervisor loop adds
to the calls exactly one `GetBundle` per cycle, followed in the successful
cycles and only in them by `SetApplications` with that cycle's applications;
so there are `k` fetches, the `SetApplications` arguments are those of the
successful fetches in order, and the supervisor ends with the applications of
the most recent successful fetch, or with its initial ones when none
succeeded. -/
theorem runSupervisor_resilient (a : Agent) (rs : List (Except Err Bundle)) (w : World) :
    (a.runSupervisor rs w).calls = w.calls ++ rs.flatMap cycleCalls ∧
    (rs.flatMap cycleCalls).count Call.getBundle = rs.length ∧
    (rs.flatMap cycleCalls).filterMap setApplicationsArg
      = rs.filterMap fetchedApplications ∧
    (a.runSupervisor rs w).applications
      = (rs.filterMap fetchedApplications).getLast?.getD w.applications :=
  ⟨(runSupervisor_spec a rs w).1, count_getBundle_cycles rs, setApplications_cycles rs,
    (runSupervisor_spec a rs w).2.1⟩

/-! ## Credential store -/

theorem ioutilWriteFile_ok (wf : Option WriteFault) (fs fs2 : FS) (path : GoPath) (b : Bytes)
    (h : ioutilWriteFile wf fs path b = (none, fs2)) :
    ∃ p, path = some p ∧ walkDirs fs p.rooted p.above = none ∧
      fs.lookup p ≠ some Node.dir ∧ wf = none ∧ fs2 = fs.set p (Node.file b) := by
  cases path with
  | none => simp [ioutilWriteFile] at h
  | some p =>
    refine ⟨p, rfl, ?_⟩
    unfold ioutilWriteFile at h
    cases hw : walkDirs fs p.rooted p.above with
    | some e => simp [hw] at h
    | none =>
      simp only [hw] at h
      cases hl : fs.lookup p with
      | none =>
        simp only [hl] at h
        cases wf with
        | none =>
          simp only [Prod.mk.injEq, true_and] at h
          exact ⟨rfl, by simp, rfl, h.symm⟩
        | some f => cases f <;> simp at h
      | some n =>
        cases n with
        | dir => simp [hl] at h
        | file c =>
          simp only [hl] at h
          cases wf with
          | none =>
            simp only [Prod.mk.injEq, true_and] at h
            exact ⟨rfl, by simp, rfl, h.symm⟩
          | some f => cases f <;> simp at h

theorem osMkdirAll_ok (mf : Option IOErr) (fs fs1 : FS) (path : GoPath)
    (h : osMkdirAll mf fs path = (none, fs1)) :
    ∃ p, path = some p ∧ mf = none ∧ mkdirWalk fs p.rooted p.comps.inits = .ok fs1 := by
  cases path with
  | none => simp [osMkdirAll] at h
  | some p =>
    refine ⟨p, rfl, ?_⟩
    unfold osMkdirAll at h
    cases mf with
    | some e => simp at h
    | none =>
      simp only at h
      cases hm : mkdirWalk fs p.rooted p.comps.inits with
      | error e => simp [hm] at h
      | ok fs0 =>
        simp only [hm, Prod.mk.injEq, true_and] at h
        exact ⟨rfl, by rw [h]⟩

theorem writeFile_ok (a : Agent) (mf : Option IOErr) (wf : Option WriteFault) (fs fs2 : FS)
    (b : Bytes) (elem : List String) (h : a.writeFile mf wf fs b elem = (none, fs2)) :
    ∃ fs1, osMkdirAll mf fs (a.fileLocation []) = (none, fs1) ∧
      ioutilWriteFile wf fs1 (a.fileLocation elem) b = (none, fs2) := by
  unfold writeFile at h
  rcases hm : osMkdirAll mf fs (a.fileLocation []) with ⟨r1, fs1⟩
  rw [hm] at h
  cases r1 with
  | some e => simp at h
  | none =>
    refine ⟨fs1, rfl, ?_⟩
    simp only at h
    rcases hw : ioutilWriteFile wf fs1 (a.fileLocation elem) b with ⟨r2, fs3⟩
    rw [hw] at h
    cases r2 with
    | some e => simp at h
    | none =>
      simp only [Prod.mk.injEq, true_and] at h
      rw [h]

theorem not_anchor_of_lookup (fs : FS) (p : CleanPath) (h : fs.lookup p ≠ some Node.dir) :
    isAnchor p = false := by
  unfold FS.lookup at h
  by_cases ha : isAnchor p = true
  · simp [ha] at h
  · simpa using ha

theorem read_after_set (fs : FS) (p : CleanPath) (b : Bytes)
    (hw : walkDirs fs p.rooted p.above = none) (hl : fs.lookup p ≠ some Node.dir) :
    ioutilReadFile (fs.set p (Node.file b)) (some p) = .ok b := by
  have ha := not_anchor_of_lookup fs p hl
  simp [ioutilReadFile, resolve, walkDirs_set_self, hw, lookup_set_self fs p _ ha]

theorem writeFile_read_back (a : Agent) (mf : Option IOErr) (wf : Option WriteFault)
    (fs fs2 : FS) (b : Bytes) (elem : List String)
    (h : a.writeFile mf wf fs b elem = (none, fs2)) :
    ioutilReadFile fs2 (a.fileLocation elem) = .ok b := by
  obtain ⟨fs1, _, h2⟩ := writeFile_ok a mf wf fs fs2 b elem h
  obtain ⟨p, hp, hw, hl, _, hfs⟩ := ioutilWriteFile_ok wf fs1 fs2 _ b h2
  rw [hp, hfs]
  exact read_after_set fs1 p b hw hl

/-- C8: when `writeFile` returns no error, reading the file at `fileLocation`
of the same path segments returns exactly the bytes written.  This holds for
every byte sequence and all path segments, in particular for every non-empty
byte sequence and each of the two credential file names. -/
theorem writeFile_round_trip (a : Agent) (mf : Option IOErr) (wf : Option WriteFault)
    (fs : FS) (b : Bytes) (elem : List String)
    (h : (a.writeFile mf wf fs b elem).1 = none) :
    ioutilReadFile (a.writeFile mf wf fs b elem).2 (a.fileLocation elem) = .ok b :=
  writeFile_read_back a mf wf fs _ b elem (Prod.ext h rfl)

/-- C8, concrete instances: both credential files on an empty file system. -/
theorem writeFile_round_trip_witness :
    ((sampleAgent.writeFile none none emptyFS [107, 49] [accessKeyFilename]).1 = none ∧
      ioutilReadFile (sampleAgent.writeFile none none emptyFS [107, 49] [accessKeyFilename]).2
        (sampleAgent.fileLocation [accessKeyFilename]) = .ok [107, 49]) ∧
    ((sampleAgent.writeFile none none emptyFS [100, 55] [deviceIDFilename]).1 = none ∧
      ioutilReadFile (sampleAgent.writeFile none none emptyFS [100, 55] [deviceIDFilename]).2
        (sampleAgent.fileLocation [deviceIDFilename]) = .ok [100, 55]) :=
  ⟨⟨by decide, writeFile_round_trip sampleAgent none none emptyFS [107, 49]
      [accessKeyFilename] (by decide)⟩,
    ⟨by decide, writeFile_round_trip sampleAgent none none emptyFS [100, 55]
      [deviceIDFilename] (by decide)⟩⟩

/-! ## Fresh registration -/

theorem read_ok_iff (fs : FS) (p : CleanPath) (b : Bytes) :
    ioutilReadFile fs (some p) = .ok b ↔
      walkDirs fs p.rooted p.above = none ∧ fs.lookup p = some (Node.file b) := by
  unfold ioutilReadFile resolve
  cases hw : walkDirs fs p.rooted p.above with
  | some e => simp [hw]
  | none =>
    cases hl : fs.lookup p with
    | none => simp [hw, hl]
    | some n => cases n <;> simp [hw, hl]

theorem childPath_ne (bp : CleanPath) (f1 f2 : String) (h : f1 ≠ f2) :
    childPath (some bp) f1 ≠ childPath (some bp) f2 := by
  intro heq
  simp [childPath] at heq
  exact h heq

theorem read_after_other_write (a : Agent) (mf : Option IOErr) (wf : Option WriteFault)
    (fs1 fs2 : FS) (b1 b2 : Bytes) (f1 f2 : String)
    (hf1 : PlainName f1) (hf2 : PlainName f2) (hne : f1 ≠ f2)
    (hread : ioutilReadFile fs1 (a.fileLocation [f1]) = .ok b1)
    (hwrite : a.writeFile mf wf fs1 b2 [f2] = (none, fs2)) :
    ioutilReadFile fs2 (a.fileLocation [f1]) = .ok b1 := by
  obtain ⟨fsm, hm, hw⟩ := writeFile_ok a mf wf fs1 fs2 b2 [f2] hwrite
  obtain ⟨bp, hbp, _, hmk⟩ := osMkdirAll_ok mf fs1 fsm _ hm
  rw [fileLocation_plain a f1 hf1, hbp] at hread ⊢
  rw [fileLocation_plain a f2 hf2, hbp] at hw
  obtain ⟨hwalk, hlook⟩ := (read_ok_iff _ _ _).1 hread
  have habove : (childPath (some bp) f1).above = bp.comps.inits := above_snoc _ _ _
  have hrooted : (childPath (some bp) f1).rooted = bp.rooted := rfl
  rw [habove, hrooted] at hwalk
  have hall := (walkDirs_eq_none_iff _ _ _).1 hwalk
  have hsame := mkdirWalk_of_allDirs fs1 bp.rooted bp.comps.inits hall
  rw [hsame] at hmk
  simp only [Except.ok.injEq] at hmk
  subst hmk
  obtain ⟨p2, hp2, _, _, _, hfs2⟩ := ioutilWriteFile_ok wf fs1 fs2 _ b2 hw
  simp only [Option.some.injEq] at hp2
  subst hp2
  subst hfs2
  apply (read_ok_iff _ _ _).2
  constructor
  · rw [habove, hrooted, walkDirs_set]
    · exact hwalk
    · intro cs hcs heq
      have hpre := (List.mem_inits cs bp.comps).1 hcs
      have hlen := hpre.length_le
      have : cs = bp.comps ++ [f2] := by
        have := congrArg CleanPath.comps heq
        simpa [childPath] using this
      rw [this] at hlen
      simp at hlen
  · rw [lookup_set_ne _ _ _ _ (childPath_ne bp f1 f2 hne)]
    exact hlook

theorem accessKey_ne_deviceID : accessKeyFilename ≠ deviceIDFilename := by decide

theorem pair_of_fst_none (x : Option IOErr × FS) (h : x.1 = none) : x = (none, x.2) :=
  Prod.ext h rfl

theorem register_ok (a : Agent) (env : Env) (w : World) (resp : RegisterDeviceResponse)
    (fs1 fs2 : FS)
    (hreg : env.registerDevice a.registrationToken = .ok resp)
    (e1 : a.writeFile env.mkdirAccessKey env.writeAccessKey w.fs
      resp.deviceAccessKeyValue [accessKeyFilename] = (none, fs1))
    (e2 : a.writeFile env.mkdirDeviceID env.writeDeviceID fs1
      resp.deviceID [deviceIDFilename] = (none, fs2)) :
    a.register env w = (none, { w with
      fs := fs2
      calls := w.calls ++ [Call.registerDevice a.registrationToken] }) := by
  unfold register
  simp only [hreg, e1, e2]

/-- C1: when the access-key file does not exist, `RegisterDevice` succeeds with
`(accessKey, deviceID)` and both `writeFile` calls return no error, `Initialize`
returns success; the calls it makes are exactly `RegisterDevice` with the
agent's registration token, once, then `SetAccessKey(accessKey)` and
`SetDeviceID(deviceID)`; afterwards the access-key file reads back as exactly
the bytes of `accessKey`, the device-id file as exactly the bytes of
`deviceID`, and the client holds both.  (The device-id file need not be absent
beforehand: it is overwritten.) -/
theorem initialize_fresh_registration (a : Agent) (env : Env) (w : World)
    (resp : RegisterDeviceResponse)
    (hak : osStat w.fs (a.fileLocation [accessKeyFilename]) = some IOErr.notExist)
    (hreg : env.registerDevice a.registrationToken = .ok resp)
    (hw1 : (a.writeFile env.mkdirAccessKey env.writeAccessKey w.fs
      resp.deviceAccessKeyValue [accessKeyFilename]).1 = none)
    (hw2 : (a.writeFile env.mkdirDeviceID env.writeDeviceID
      (a.writeFile env.mkdirAccessKey env.writeAccessKey w.fs
        resp.deviceAccessKeyValue [accessKeyFilename]).2
      resp.deviceID [deviceIDFilename]).1 = none) :
    (a.Initialize env w).1 = none ∧
    (a.Initialize env w).2.calls = w.calls ++
      [Call.registerDevice a.registrationToken,
        Call.setAccessKey resp.deviceAccessKeyValue, Call.setDeviceID resp.deviceID] ∧
    ioutilReadFile (a.Initialize env w).2.fs (a.fileLocation [accessKeyFilename])
      = .ok resp.deviceAccessKeyValue ∧
    ioutilReadFile (a.Initialize env w).2.fs (a.fileLocation [deviceIDFilename])
      = .ok resp.deviceID ∧
    (a.Initialize env w).2.client
      = { accessKey := resp.deviceAccessKeyValue, deviceID := resp.deviceID } := by
  have e1 := pair_of_fst_none _ hw1
  have e2 := pair_of_fst_none _ hw2
  have hr := register_ok a env w resp _ _ hreg e1 e2
  have r1 := read_after_other_write a _ _ _ _ _ _ accessKeyFilename deviceIDFilename
    plainName_accessKey plainName_deviceID accessKey_ne_deviceID
    (writeFile_read_back a _ _ _ _ _ _ e1) e2
  have r2 := writeFile_read_back a _ _ _ _ _ _ e2
  unfold Initialize
  simp only [hak, IOErr.isNotExist, if_true, hr, r1, r2, List.append_assoc,
    List.singleton_append, and_self]

/-- C1, concrete instance: a fresh device on an empty file system. -/
theorem initialize_fresh_registration_witness :
    osStat sampleWorld.fs (sampleAgent.fileLocation [accessKeyFilename]) = some IOErr.notExist ∧
    (sampleAgent.Initialize (okEnv [107, 49] [100, 55]) sampleWorld).1 = none ∧
    (sampleAgent.Initialize (okEnv [107, 49] [100, 55]) sampleWorld).2.calls =
      [Call.registerDevice "tok", Call.setAccessKey [107, 49], Call.setDeviceID [100, 55]] ∧
    (sampleAgent.Initialize (okEnv [107, 49] [100, 55]) sampleWorld).2.client
      = { accessKey := [107, 49], deviceID := [100, 55] } :=
  have h := initialize_fresh_registration sampleAgent (okEnv [107, 49] [100, 55]) sampleWorld
    { deviceAccessKeyValue := [107, 49], deviceID := [100, 55] }
    (by decide) rfl (by decide) (by decide)
  ⟨by decide, h.1, h.2.1, h.2.2.2.2⟩

/-! ## Both credential files, or only the first -/

/-- C4, refuted as stated: on an empty file system, when the registration
succeeds and the write of the device-id file fails, neither credential file
exists before `Initialize`, `Initialize` returns an error, and afterwards the
access-key file exists while the device-id file does not. -/
theorem both_or_neither_fails :
    ¬ PathExists sampleWorld.fs (sampleAgent.fileLocation [accessKeyFilename]) ∧
    ¬ PathExists sampleWorld.fs (sampleAgent.fileLocation [deviceIDFilename]) ∧
    (sampleAgent.Initialize diskFullEnv sampleWorld).1 ≠ none ∧
    ¬ BothOrNeither sampleAgent (sampleAgent.Initialize diskFullEnv sampleWorld).2.fs := by
  unfold BothOrNeither PathExists
  decide

theorem foldl_set_lookup_other (r : Bool) (L : List (List String)) (fs : FS) (q : CleanPath)
    (n : Node) (h : ∀ cs ∈ L, (⟨r, cs⟩ : CleanPath) ≠ q) :
    (L.foldl (fun f ds => f.set ⟨r, ds⟩ n) fs).lookup q = fs.lookup q := by
  induction L generalizing fs with
  | nil => rfl
  | cons cs rest ih =>
    rw [List.foldl_cons, ih _ (fun ds hd => h ds (List.mem_cons_of_mem _ hd))]
    exact lookup_set_ne fs _ q n (fun heq => h cs (List.mem_cons_self _ _) heq.symm)

theorem mkdirWalk_lookup_other (fs fsm : FS) (r : Bool) (L : List (List String))
    (q : CleanPath) (hm : mkdirWalk fs r L = .ok fsm)
    (h : ∀ cs ∈ L, (⟨r, cs⟩ : CleanPath) ≠ q) : fsm.lookup q = fs.lookup q := by
  induction L with
  | nil =>
    simp only [mkdirWalk, Except.ok.injEq] at hm
    rw [← hm]
  | cons cs rest ih =>
    simp only [mkdirWalk] at hm
    cases hl : fs.lookup ⟨r, cs⟩ with
    | none =>
      rw [hl] at hm
      simp only [Except.ok.injEq] at hm
      subst hm
      rw [foldl_set_lookup_other r rest _ q _ (fun ds hd => h ds (List.mem_cons_of_mem _ hd))]
      exact lookup_set_ne fs _ q _ (fun heq => h cs (List.mem_cons_self _ _) heq.symm)
    | some n =>
      rw [hl] at hm
      cases n with
      | file b => simp at hm
      | dir => exact ih hm (fun ds hd => h ds (List.mem_cons_of_mem _ hd))

theorem child_not_above (bp : CleanPath) (f : String) :
    ∀ cs ∈ bp.comps.inits, (⟨bp.rooted, cs⟩ : CleanPath) ≠ childPath (some bp) f := by
  intro cs hcs heq
  have hlen := ((List.mem_inits cs bp.comps).1 hcs).length_le
  have : cs = bp.comps ++ [f] := by
    have := congrArg CleanPath.comps heq
    simpa [childPath] using this
  rw [this] at hlen
  simp at hlen

theorem stat_eq_none_iff (fs : FS) (p : CleanPath) :
    osStat fs (some p) = none ↔
      walkDirs fs p.rooted p.above = none ∧ fs.lookup p ≠ none := by
  unfold osStat resolve
  cases hw : walkDirs fs p.rooted p.above with
  | some e => simp [hw]
  | none =>
    cases hl : fs.lookup p with
    | none => simp [hw, hl]
    | some n => simp [hw, hl]

theorem stat_child_after_mkdir (fs fsm : FS) (bp : CleanPath) (f : String)
    (hwf : WellFormed fs)
    (hm : mkdirWalk fs bp.rooted bp.comps.inits = .ok fsm)
    (hst : osStat fs (some (childPath (some bp) f)) ≠ none) :
    osStat fsm (some (childPath (some bp) f)) ≠ none := by
  intro hex
  apply hst
  obtain ⟨_, hl⟩ := (stat_eq_none_iff _ _).1 hex
  rw [mkdirWalk_lookup_other fs fsm _ _ _ hm (child_not_above bp f)] at hl
  have hall := hwf _ hl
  exact (stat_eq_none_iff _ _).2 ⟨(walkDirs_eq_none_iff _ _ _).2 hall, hl⟩

theorem stat_after_set_file (fs : FS) (p : CleanPath) (c : Bytes)
    (hw : walkDirs fs p.rooted p.above = none) (hl : fs.lookup p ≠ some Node.dir) :
    osStat (fs.set p (Node.file c)) (some p) = none :=
  stat_of_read _ _ c (read_after_set fs p c hw hl)

theorem stat_after_set_sibling (fs : FS) (bp : CleanPath) (f1 f2 : String) (n : Node)
    (hne : f1 ≠ f2) (h : osStat fs (some (childPath (some bp) f1)) = none) :
    osStat (fs.set (childPath (some bp) f2) n) (some (childPath (some bp) f1)) = none := by
  obtain ⟨hw, hl⟩ := (stat_eq_none_iff _ _).1 h
  apply (stat_eq_none_iff _ _).2
  have habove : (childPath (some bp) f1).above = bp.comps.inits := above_snoc _ _ _
  have hrooted : (childPath (some bp) f1).rooted = bp.rooted := rfl
  constructor
  · rw [habove, hrooted] at hw ⊢
    rw [walkDirs_set _ _ _ _ _ (child_not_above bp f2)]
    exact hw
  · rw [lookup_set_ne _ _ _ _ (childPath_ne bp f1 f2 hne)]
    exact hl

/-- Outcomes of `writeFile` on a plain file name: the file system is as
before, or the state directory has been made and then either nothing more
happened or the file was created with some contents. -/
theorem writeFile_cases (a : Agent) (mf : Option IOErr) (wf : Option WriteFault) (fs : FS)
    (b : Bytes) (f : String) (hf : PlainName f) :
    (a.writeFile mf wf fs b [f]).2 = fs ∨
    ∃ bp fsm, a.fileLocation [] = some bp ∧
      mkdirWalk fs bp.rooted bp.comps.inits = .ok fsm ∧
      ((a.writeFile mf wf fs b [f]).2 = fsm ∨
        ∃ c, (a.writeFile mf wf fs b [f]).2 = fsm.set (childPath (some bp) f) (Node.file c) ∧
          walkDirs fsm bp.rooted bp.comps.inits = none ∧
          fsm.lookup (childPath (some bp) f) ≠ some Node.dir) := by
  unfold writeFile
  rcases hm : osMkdirAll mf fs (a.fileLocation []) with ⟨r1, fs1⟩
  cases r1 with
  | some e =>
    left
    cases hb : a.fileLocation [] with
    | none => rw [hb] at hm; simp [osMkdirAll] at hm; simp [hm.2]
    | some bp =>
      rw [hb] at hm
      unfold osMkdirAll at hm
      cases mf with
      | some e0 => simp at hm; simp [hm.2]
      | none =>
        simp only at hm
        cases hk : mkdirWalk fs bp.rooted bp.comps.inits with
        | error e1 => rw [hk] at hm; simp at hm; simp [hm.2]
        | ok fs0 => rw [hk] at hm; simp at hm
  | none =>
    right
    obtain ⟨bp, hbp, _, hmk⟩ := osMkdirAll_ok mf fs fs1 _ hm
    refine ⟨bp, fs1, hbp, hmk, ?_⟩
    have hall := mkdirWalk_ok_allDirs fs fs1 _ _ hmk
    have hwalk := (walkDirs_eq_none_iff _ _ _).2 hall
    have habove : (childPath (some bp) f).above = bp.comps.inits := above_snoc _ _ _
    have hrooted : (childPath (some bp) f).rooted = bp.rooted := rfl
    simp only
    rw [fileLocation_plain a f hf, hbp]
    unfold ioutilWriteFile
    simp only [habove, hrooted, hwalk]
    cases hl : fs1.lookup (childPath (some bp) f) with
    | none =>
      simp only
      cases wf with
      | none => right; exact ⟨b, rfl, trivial, by simp⟩
      | some flt =>
        cases flt with
        | openErr e => left; rfl
        | shortWrite n e => right; exact ⟨b.take n, rfl, trivial, by simp⟩
    | some nd =>
      cases nd with
      | dir => left; rfl
      | file c0 =>
        simp only
        cases wf with
        | none => right; exact ⟨b, rfl, trivial, by simp⟩
        | some flt =>
          cases flt with
          | openErr e => left; rfl
          | shortWrite n e => right; exact ⟨b.take n, rfl, trivial, by simp⟩

theorem register_fs_cases (a : Agent) (env : Env) (w : World) :
    (a.register env w).2.fs = w.fs ∨
    ∃ resp : RegisterDeviceResponse,
      ((a.writeFile env.mkdirAccessKey env.writeAccessKey w.fs
          resp.deviceAccessKeyValue [accessKeyFilename]).1 ≠ none ∧
        (a.register env w).2.fs = (a.writeFile env.mkdirAccessKey env.writeAccessKey w.fs
          resp.deviceAccessKeyValue [accessKeyFilename]).2) ∨
      ((a.writeFile env.mkdirAccessKey env.writeAccessKey w.fs
          resp.deviceAccessKeyValue [accessKeyFilename]).1 = none ∧
        (a.register env w).2.fs = (a.writeFile env.mkdirDeviceID env.writeDeviceID
          (a.writeFile env.mkdirAccessKey env.writeAccessKey w.fs
            resp.deviceAccessKeyValue [accessKeyFilename]).2
          resp.deviceID [deviceIDFilename]).2) := by
  unfold register
  cases hreg : env.registerDevice a.registrationToken with
  | error e => left; rfl
  | ok resp =>
    right
    refine ⟨resp, ?_⟩
    dsimp only
    rcases h1 : a.writeFile env.mkdirAccessKey env.writeAccessKey w.fs
      resp.deviceAccessKeyValue [accessKeyFilename] with ⟨r1, fs1⟩
    cases r1 with
    | some e => left; exact ⟨by simp, rfl⟩
    | none =>
      right
      refine ⟨rfl, ?_⟩
      dsimp only
      rcases h2 : a.writeFile env.mkdirDeviceID env.writeDeviceID fs1
        resp.deviceID [deviceIDFilename] with ⟨r2, fs2⟩
      cases r2 <;> rfl

theorem writeFile_first_nested (a : Agent) (mf : Option IOErr) (wf : Option WriteFault)
    (fs : FS) (b : Bytes) (hwf : WellFormed fs)
    (hid : ¬ PathExists fs (a.fileLocation [deviceIDFilename])) :
    PathExists (a.writeFile mf wf fs b [accessKeyFilename]).2
        (a.fileLocation [deviceIDFilename]) →
      PathExists (a.writeFile mf wf fs b [accessKeyFilename]).2
        (a.fileLocation [accessKeyFilename]) := by
  intro hex
  rcases writeFile_cases a mf wf fs b accessKeyFilename plainName_accessKey with
    h | ⟨bp, fsm, hbp, hmk, h | ⟨c, h, hwalk, hl⟩⟩
  · rw [h] at hex
    exact absurd hex hid
  · rw [h] at hex
    rw [fileLocation_plain a _ plainName_deviceID, hbp] at hex hid
    exact absurd hex (stat_child_after_mkdir fs fsm bp _ hwf hmk hid)
  · rw [h, fileLocation_plain a _ plainName_accessKey, hbp]
    apply stat_after_set_file _ _ _ _ hl
    have habove : (childPath (some bp) accessKeyFilename).above = bp.comps.inits :=
      above_snoc _ _ _
    rw [habove]
    exact hwalk

theorem writeFile_second_keeps (a : Agent) (mf : Option IOErr) (wf : Option WriteFault)
    (fs : FS) (b : Bytes)
    (hak : PathExists fs (a.fileLocation [accessKeyFilename])) :
    PathExists (a.writeFile mf wf fs b [deviceIDFilename]).2
      (a.fileLocation [accessKeyFilename]) := by
  rcases writeFile_cases a mf wf fs b deviceIDFilename plainName_deviceID with
    h | ⟨bp, fsm, hbp, hmk, hrest⟩
  · rw [h]
    exact hak
  · rw [fileLocation_plain a _ plainName_accessKey, hbp] at hak ⊢
    obtain ⟨hw, _⟩ := (stat_eq_none_iff _ _).1 hak
    have habove : (childPath (some bp) accessKeyFilename).above = bp.comps.inits :=
      above_snoc _ _ _
    have hrooted : (childPath (some bp) accessKeyFilename).rooted = bp.rooted := rfl
    rw [habove, hrooted] at hw
    have hsame := mkdirWalk_of_allDirs fs _ _ ((walkDirs_eq_none_iff _ _ _).1 hw)
    rw [hsame] at hmk
    simp only [Except.ok.injEq] at hmk
    subst hmk
    rcases hrest with h | ⟨c, h, _, _⟩
    · rw [h]
      exact hak
    · rw [h]
      exact stat_after_set_sibling fs bp _ _ _ accessKey_ne_deviceID hak

theorem initialize_fs (a : Agent) (env : Env) (w : World) :
    (a.Initialize env w).2.fs = w.fs ∨ (a.Initialize env w).2.fs = (a.register env w).2.fs := by
  unfold Initialize
  cases hstat : osStat w.fs (a.fileLocation [accessKeyFilename]) with
  | none =>
    left
    dsimp only
    split
    · rfl
    · split
      · rfl
      · rfl
  | some e =>
    by_cases hne : e.isNotExist = true
    · right
      simp only [hne, if_true]
      rcases hr : a.register env w with ⟨r1, w1⟩
      cases r1 with
      | some er => rfl
      | none =>
        dsimp only
        split
        · rfl
        · split
          · rfl
          · rfl
    · left
      simp only [hne]
      rfl

theorem initialize_ok_reads (a : Agent) (env : Env) (w : World)
    (h : (a.Initialize env w).1 = none) :
    ∃ k d, ioutilReadFile (a.Initialize env w).2.fs (a.fileLocation [accessKeyFilename]) = .ok k ∧
      ioutilReadFile (a.Initialize env w).2.fs (a.fileLocation [deviceIDFilename]) = .ok d ∧
      (a.Initialize env w).2.client = { accessKey := k, deviceID := d } := by
  unfold Initialize at h ⊢
  generalize (match osStat w.fs (a.fileLocation [accessKeyFilename]) with
    | none => ((none : Option Err), w)
    | some err =>
      if err.isNotExist then
        match a.register env w with
        | (some err, w1) => (some (Err.wrap err "failed to register device"), w1)
        | (none, w1) => (none, w1)
      else (some (Err.wrap (Err.io err) "failed to check for access key"), w)) = checked at h ⊢
  rcases checked with ⟨r, w1⟩
  cases r with
  | some e => simp at h
  | none =>
    dsimp only at h ⊢
    cases h1 : ioutilReadFile w1.fs (a.fileLocation [accessKeyFilename]) with
    | error e1 => simp [h1] at h
    | ok k =>
      cases h2 : ioutilReadFile w1.fs (a.fileLocation [deviceIDFilename]) with
      | error e2 => simp [h1, h2] at h
      | ok d => exact ⟨k, d, by simp [h1, h2]⟩

theorem isAnchor_of_prefix (r : Bool) (cs l : List String) (h : cs <+: l)
    (ha : isAnchor ⟨r, l⟩ = true) : isAnchor ⟨r, cs⟩ = true := by
  obtain ⟨t, rfl⟩ := h
  simp only [isAnchor, List.all_append, Bool.and_eq_true] at ha ⊢
  exact ha.1

theorem wellFormed_emptyFS : WellFormed emptyFS := by
  intro q hq cs hcs
  have ha : isAnchor q = true := by
    by_cases ha : isAnchor q = true
    · exact ha
    · simp [FS.lookup, ha, emptyFS] at hq
  have hpre : cs <+: q.comps :=
    (List.mem_inits cs q.comps).1 (List.mem_of_mem_dropLast hcs)
  have := isAnchor_of_prefix q.rooted cs q.comps hpre ha
  simp [FS.lookup, this]

/-- C4, amended: starting from a file system in which neither credential file
exists, after `Initialize` returns, whatever the outcomes of `RegisterDevice`
and of the two file writes, the device-id file exists only if the access-key
file exists (both exist, or neither, or the access-key file alone); and when
`Initialize` returns success both exist.  Only the absence of the device-id
file is used. -/
theorem initialize_deviceID_implies_accessKey (a : Agent) (env : Env) (w : World)
    (hwf : WellFormed w.fs)
    (hid : ¬ PathExists w.fs (a.fileLocation [deviceIDFilename])) :
    (PathExists (a.Initialize env w).2.fs (a.fileLocation [deviceIDFilename]) →
      PathExists (a.Initialize env w).2.fs (a.fileLocation [accessKeyFilename])) ∧
    ((a.Initialize env w).1 = none →
      PathExists (a.Initialize env w).2.fs (a.fileLocation [accessKeyFilename]) ∧
      PathExists (a.Initialize env w).2.fs (a.fileLocation [deviceIDFilename])) := by
  constructor
  · intro hex
    rcases initialize_fs a env w with h | h
    · rw [h] at hex
      exact absurd hex hid
    · rw [h] at hex ⊢
      rcases register_fs_cases a env w with h0 | ⟨resp, ⟨_, h1⟩ | ⟨_, h2⟩⟩
      · rw [h0] at hex
        exact absurd hex hid
      · rw [h1] at hex ⊢
        exact writeFile_first_nested a _ _ w.fs _ hwf hid hex
      · rename_i hnone
        rw [h2]
        apply writeFile_second_keeps
        exact stat_of_read _ _ _
          (writeFile_read_back a _ _ _ _ _ _ (pair_of_fst_none _ hnone))
  · intro hok
    obtain ⟨k, d, hk, hd, _⟩ := initialize_ok_reads a env w hok
    exact ⟨stat_of_read _ _ _ hk, stat_of_read _ _ _ hd⟩

/-- C4 amended, concrete instance: the run in which the device-id write fails
ends with the access-key file alone. -/
theorem initialize_deviceID_implies_accessKey_witness :
    WellFormed sampleWorld.fs ∧
    ¬ PathExists sampleWorld.fs (sampleAgent.fileLocation [deviceIDFilename]) ∧
    (PathExists (sampleAgent.Initialize diskFullEnv sampleWorld).2.fs
        (sampleAgent.fileLocation [deviceIDFilename]) →
      PathExists (sampleAgent.Initialize diskFullEnv sampleWorld).2.fs
        (sampleAgent.fileLocation [accessKeyFilename])) ∧
    PathExists (sampleAgent.Initialize diskFullEnv sampleWorld).2.fs
      (sampleAgent.fileLocation [accessKeyFilename]) :=
  ⟨wellFormed_emptyFS, by unfold PathExists; decide,
    (initialize_deviceID_implies_accessKey sampleAgent diskFullEnv sampleWorld
      wellFormed_emptyFS (by unfold PathExists; decide)).1,
    by unfold PathExists; decide⟩

/-! ## Entry point -/

/-- C6, refuted as stated: on a fresh device whose registration is refused,
`Initialize` fails, yet `Run` performs a loop action (`GetBundle`); and `Run`
makes no `RegisterDevice` call, which `Initialize` makes in that world, so `Run`
has not run `Initialize`. -/
theorem run_skips_initialize :
    (sampleAgent.Initialize refusingEnv sampleWorld).1 ≠ none ∧
    (sampleAgent.Initialize refusingEnv sampleWorld).2.calls = [Call.registerDevice "tok"] ∧
    (sampleAgent.Run [Tick.supervisor (.error (Err.remote 503))] sampleWorld).calls
      = [Call.getBundle] ∧
    (sampleAgent.Run [Tick.supervisor (.error (Err.remote 503))]
        (sampleAgent.Initialize refusingEnv sampleWorld).2).calls
      = [Call.registerDevice "tok", Call.getBundle] := by
  decide

/-- C6, amended: `Run` does not run `Initialize`.  Whatever the world it is
called in, it starts the three loops; for every schedule of their cycles the
calls it makes are exactly the loop actions of those cycles (`GetBundle`,
`SetApplications`, `Connector.Do`, `Report`), and it leaves the file system and
the client's credentials as they were. -/
theorem run_only_loops (a : Agent) (sched : List Tick) (w : World) :
    (a.Run sched w).calls = w.calls ++ sched.flatMap tickCalls ∧
    (∀ c ∈ sched.flatMap tickCalls, c.isLoopAction = true) ∧
    (a.Run sched w).fs = w.fs ∧
    (a.Run sched w).client = w.client := by
  refine ⟨?_, ?_, ?_, ?_⟩
  · induction sched generalizing w with
    | nil => simp [Run]
    | cons t rest ih =>
      cases t with
      | supervisor r =>
        simp only [Run, ih, List.flatMap_cons, tickCalls]
        cases r <;> simp [runSupervisor, cycleCalls]
      | connector => simp [Run, ih, runConnector, tickCalls]
      | infoReporter r => simp [Run, ih, runInfoReporter, tickCalls]
  · intro c hc
    rcases List.mem_flatMap.1 hc with ⟨t, _, hct⟩
    cases t with
    | supervisor r =>
      cases r with
      | error e =>
        simp [tickCalls, cycleCalls] at hct
        subst hct
        rfl
      | ok b =>
        simp [tickCalls, cycleCalls] at hct
        rcases hct with h | h <;> subst h <;> rfl
    | connector =>
      simp [tickCalls] at hct
      subst hct
      rfl
    | infoReporter r =>
      simp [tickCalls] at hct
      subst hct
      rfl
  · induction sched generalizing w with
    | nil => simp [Run]
    | cons t rest ih =>
      cases t with
      | supervisor r =>
        simp only [Run, ih]
        cases r <;> simp [runSupervisor]
      | connector => simp [Run, ih, runConnector]
      | infoReporter r => simp [Run, ih, runInfoReporter]
  · induction sched generalizing w with
    | nil => simp [Run]
    | cons t rest ih =>
      cases t with
      | supervisor r =>
        simp only [Run, ih]
        cases r <;> simp [runSupervisor]
      | connector => simp [Run, ih, runConnector]
      | infoReporter r => simp [Run, ih, runInfoReporter]

/-! ## Nested path segments -/

end Agent
